import Mathlib

/-!
Verification of the discrete-event simulation models in the `sd` package
(café, laundromat, clinic, assembly cell, distribution center) against their
natural-language specification.

The scenario models under `src/sd/` are translated definition by definition.
The simulation core they are built on (events, scheduler, resources, stores,
containers, combinators) is not part of the source tree; following the
specification, which describes that core component by component, the core
primitives are modelled here from the spec's words.  Every such definition
carries a doc comment starting with the words Modelled from the spec.
-/

namespace SD

/-- Identifier of an Event object.  Events are compared by object identity in
the source (they are dict keys and attribute slots), so an opaque numeric id
is the faithful translation. -/
abbrev EventoId := Nat

/-- The volumes list carried by the loading/unloading gate events
(`centro_distribuicao.py`: lists of floats; modelled as rationals). -/
abbrev Volumes := List ℚ

/-! ## Claim C1: the crew dispatch in `_processa_funcionarios__carregamento`

Source: `centro_distribuicao.py` lines 265-284.  The crew awaits
`self._evento_iniciar_carga | self._evento_iniciar_descarga` and then runs

    match dict(eventos):
        case {self._evento_iniciar_descarga: volumes_descarga}: ...6 workers
        case {self._evento_iniciar_carga: volumes_carga}: ...6 workers
        case {self._evento_iniciar_descarga: vd, self._evento_iniciar_carga: vc}:
            ...4 unload workers and 2 load workers

Python mapping patterns (PEP 634) match when every key of the pattern is
present in the subject; extra keys of the subject are ignored.  The match
cases are tried in source order. -/

/-- The id standing for the object `self._evento_iniciar_descarga` at the
moment the crew evaluates the match statement. -/
def idIniciarDescarga : EventoId := 0

/-- The id standing for the object `self._evento_iniciar_carga` at the
moment the crew evaluates the match statement. -/
def idIniciarCarga : EventoId := 1

/-- Python mapping-pattern semantics (PEP 634): a mapping pattern whose keys
are `chaves` matches the subject dict iff every key is present in the
subject; extra keys of the subject are ignored. -/
def correspondeMapa (chaves : List EventoId) (sujeito : List (EventoId × Volumes)) : Bool :=
  chaves.all (fun c => (sujeito.map Prod.fst).contains c)

/-- Which branch of the crew loop body runs, with the worker split it uses
(`_executa_funcionarios__descarga` / `_executa_funcionarios__carga` receive
`qtd_funcionarios` as shown at lines 272, 276, 282-283). -/
inductive RamoEquipe
  | descarga (qtdFuncionarios : ℕ) (volumesDescarga : Volumes)
  | carga (qtdFuncionarios : ℕ) (volumesCarga : Volumes)
  | ambos (qtdDescarga qtdCarga : ℕ) (volumesDescarga volumesCarga : Volumes)
  deriving DecidableEq

/-- Translation of the `match dict(eventos)` statement of
`_processa_funcionarios__carregamento` (lines 269-284): the three cases are
tried in source order under Python mapping-pattern semantics
(`correspondeMapa`); the value captured for a key is its value in the
subject.  `none` corresponds to no case matching (a MatchError). -/
def despachaEquipe (sujeito : List (EventoId × Volumes)) : Option RamoEquipe :=
  -- case {self._evento_iniciar_descarga: volumes_descarga}  (line 271)
  if correspondeMapa [idIniciarDescarga] sujeito then
    (sujeito.lookup idIniciarDescarga).map (RamoEquipe.descarga 6)
  -- case {self._evento_iniciar_carga: volumes_carga}  (line 275)
  else if correspondeMapa [idIniciarCarga] sujeito then
    (sujeito.lookup idIniciarCarga).map (RamoEquipe.carga 6)
  -- case with both keys  (line 279); dead exactly as in the source, because
  -- a subject containing both keys already matches the first case
  else if correspondeMapa [idIniciarDescarga, idIniciarCarga] sujeito then
    match sujeito.lookup idIniciarDescarga, sujeito.lookup idIniciarCarga with
    | some vd, some vc => some (RamoEquipe.ambos 4 2 vd vc)
    | _, _ => none
  else none

/-- The AnyOf outcome mapping observed by the crew when the unload-start and
the load-start events fired in the same clock step: both entries are present
(truck volumes then van volumes, here concrete values). -/
def sujeitoSimultaneo : List (EventoId × Volumes) :=
  [(idIniciarDescarga, [1, 2]), (idIniciarCarga, [3])]

/-- Claim C1: when the unload-start and load-start events fire in the same
clock step, the crew is claimed to take the combined branch (4 unload
workers and 2 load workers).  The code does not: the subject dict contains
both events, but Python mapping patterns ignore extra keys, so the first
case (unload only, 6 workers) matches and the load trigger is handled only
on a later iteration of the crew loop.  This theorem evaluates the dispatch
at the failing input: the branch taken is the unload-only branch with 6
workers, not the combined one. -/
theorem despacho_simultaneo_executa_somente_descarga :
    despachaEquipe sujeitoSimultaneo = some (RamoEquipe.descarga 6 [1, 2])
    ∧ ∀ vd vc, despachaEquipe sujeitoSimultaneo ≠ some (RamoEquipe.ambos 4 2 vd vc) := by
  refine ⟨rfl, ?_⟩
  intro vd vc h
  rw [show despachaEquipe sujeitoSimultaneo = some (RamoEquipe.descarga 6 [1, 2]) from rfl]
    at h
  exact RamoEquipe.noConfusion (Option.some.inj h)

/-! ## Claim C8: AllOf over the per-worker unload sub-processes

Source: `centro_distribuicao.py` lines 224-236 (`_executa_funcionarios__descarga`)
splits the volumes with `np.array_split(volumes, qtd_funcionarios)` and yields
`simpy.events.AllOf` over one `_processa_funcionario__descarga` process per
chunk; lines 286-290: each such process yields `len(chunk)` timeouts of
`1 / velocidade_descarga` hours. -/

/-- Chunk sizes produced by `np.array_split(volumes, q)` on a list of length
`n`: the first `n % q` chunks have `n / q + 1` elements, the remaining ones
have `n / q` elements. -/
def arraySplitSizes (n q : ℕ) : List ℕ :=
  (List.range q).map (fun i => if i < n % q then n / q + 1 else n / q)

/-- Sanity of the split: the chunk sizes sum back to the length of the list
being split. -/
theorem arraySplitSizes_sum (n q : ℕ) (hq : 0 < q) :
    (arraySplitSizes n q).sum = n := by
  have key : ∀ m : ℕ, m ≤ q →
      ((List.range m).map (fun i => if i < n % q then n / q + 1 else n / q)).sum
        = m * (n / q) + min m (n % q) := by
    intro m
    induction m with
    | zero => simp
    | succ k ih =>
      intro hk
      rw [List.range_succ, List.map_append, List.sum_append, ih (Nat.le_of_succ_le hk)]
      by_cases hlt : k < n % q
      · simp only [List.map_cons, List.map_nil, List.sum_cons, List.sum_nil, if_pos hlt]
        have h1 : min k (n % q) = k := Nat.min_eq_left (Nat.le_of_lt hlt)
        have h2 : min (k + 1) (n % q) = k + 1 := Nat.min_eq_left hlt
        rw [h1, h2]; ring
      · simp only [List.map_cons, List.map_nil, List.sum_cons, List.sum_nil, if_neg hlt]
        have hge : n % q ≤ k := Nat.le_of_not_lt hlt
        have h1 : min k (n % q) = n % q := Nat.min_eq_right hge
        have h2 : min (k + 1) (n % q) = n % q := Nat.min_eq_right (Nat.le_succ_of_le hge)
        rw [h1, h2]; ring
  have hmod : n % q < q := Nat.mod_lt _ hq
  rw [arraySplitSizes, key q (le_refl q), Nat.min_eq_right (Nat.le_of_lt hmod)]
  exact Nat.div_add_mod n q

/-- Witness for `arraySplitSizes_sum` at a concrete input. -/
theorem arraySplitSizes_sum_witness : (arraySplitSizes 13 6).sum = 13 :=
  arraySplitSizes_sum 13 6 (by decide)

/-- The size of the largest chunk of the split (the crew's slowest worker
handles this many boxes). -/
def maxChunk (n q : ℕ) : ℕ :=
  (arraySplitSizes n q).foldr max 0

theorem foldr_max_le {l : List ℕ} {b : ℕ} (h : ∀ x ∈ l, x ≤ b) : l.foldr max 0 ≤ b := by
  induction l with
  | nil => exact Nat.zero_le b
  | cons a t ih =>
    simp only [List.foldr_cons]
    exact max_le (h a (List.mem_cons_self a t)) (ih fun x hx => h x (List.mem_cons_of_mem a hx))

theorem le_foldr_max {l : List ℕ} {x : ℕ} (h : x ∈ l) : x ≤ l.foldr max 0 := by
  induction l with
  | nil => cases h
  | cons a t ih =>
    simp only [List.foldr_cons]
    rcases List.mem_cons.mp h with rfl | hmem
    · exact le_max_left _ _
    · exact le_trans (ih hmem) (le_max_right _ _)

/-- The largest chunk of `np.array_split` on `n` elements into `q > 0` chunks
has exactly the ceiling of `n / q` elements, written `(n + q - 1) / q`. -/
theorem maxChunk_eq_ceil (n q : ℕ) (hq : 0 < q) :
    maxChunk n q = (n + q - 1) / q := by
  have hmod : n % q < q := Nat.mod_lt _ hq
  have hceil : (n + q - 1) / q = if n % q = 0 then n / q else n / q + 1 := by
    rcases Nat.eq_zero_or_pos (n % q) with h0 | hpos
    · rw [if_pos h0]
      have hdm : q * (n / q) + n % q = n := Nat.div_add_mod n q
      have h1 : n + q - 1 = q * (n / q) + (q - 1) := by omega
      have h3 : (q * (n / q) + (q - 1)) / q = n / q + (q - 1) / q := Nat.mul_add_div hq _ _
      have h4 : (q - 1) / q = 0 := Nat.div_eq_of_lt (by omega)
      rw [h1, h3, h4, Nat.add_zero]
    · rw [if_neg (Nat.pos_iff_ne_zero.mp hpos)]
      have hdm : q * (n / q) + n % q = n := Nat.div_add_mod n q
      have h2 : q * (n / q + 1) = q * (n / q) + q := by ring
      have h1 : n + q - 1 = q * (n / q + 1) + (n % q - 1) := by omega
      have h3 : (q * (n / q + 1) + (n % q - 1)) / q = (n / q + 1) + (n % q - 1) / q :=
        Nat.mul_add_div hq _ _
      have h4 : (n % q - 1) / q = 0 := Nat.div_eq_of_lt (by omega)
      rw [h1, h3, h4, Nat.add_zero]
  rw [hceil]
  rcases Nat.eq_zero_or_pos (n % q) with h0 | hpos
  · rw [if_pos h0]
    apply le_antisymm
    · apply foldr_max_le
      intro x hx
      simp only [arraySplitSizes, List.mem_map, List.mem_range] at hx
      obtain ⟨i, _, rfl⟩ := hx
      rw [if_neg (by omega)]
    · apply le_foldr_max
      simp only [arraySplitSizes, List.mem_map, List.mem_range]
      exact ⟨0, hq, by rw [if_neg (by omega)]⟩
  · rw [if_neg (Nat.pos_iff_ne_zero.mp hpos)]
    apply le_antisymm
    · apply foldr_max_le
      intro x hx
      simp only [arraySplitSizes, List.mem_map, List.mem_range] at hx
      obtain ⟨i, _, rfl⟩ := hx
      split <;> omega
    · apply le_foldr_max
      simp only [arraySplitSizes, List.mem_map, List.mem_range]
      exact ⟨0, hq, by rw [if_pos hpos]⟩

/-- Finishing instant of one `_processa_funcionario__descarga` sub-process
(lines 286-290) started at `inicio` on a chunk of `k` boxes: the loop yields
one timeout of `1 / velocidade_descarga` hours per box. -/
def instanteFimFuncionarioDescarga (inicio : ℚ) (k : ℕ) (velocidadeDescarga : ℚ) : ℚ :=
  inicio + k * (1 / velocidadeDescarga)

/-- Modelled from the spec: the simpy combinator core is absent from the
source tree; per the spec, an AllOf over events fires at the maximum of its
members' fire times (and not before the last member).  `inicio` is the
construction instant (a lower bound for every member here). -/
def instanteAllOf (instantes : List ℚ) (inicio : ℚ) : ℚ :=
  instantes.foldr max inicio

/-- Instant at which the crew of `_executa_funcionarios__descarga` resumes
after yielding the AllOf over the `q` per-worker sub-processes started at
`inicio` on the chunks of an `n`-box unload (lines 231-236). -/
def instanteRetomadaDescarga (inicio : ℚ) (n q : ℕ) (velocidadeDescarga : ℚ) : ℚ :=
  instanteAllOf
    ((arraySplitSizes n q).map (fun k => instanteFimFuncionarioDescarga inicio k velocidadeDescarga))
    inicio

/-- Claim C8: the AllOf over the per-worker unload sub-processes fires
exactly at the maximum of the workers' finish times: the crew resumes
exactly `maxChunk n q / velocidade_descarga` hours after the sub-processes
start, where the largest chunk has the ceiling of `n / q` boxes; the resume
instant is at least every worker's finish instant (so not the minimum,
unless all coincide) and equals one worker's finish instant (so not later
than the last). -/
theorem allOf_descarga_fires_no_maximo (inicio : ℚ) (n q : ℕ) (v : ℚ)
    (hq : 0 < q) (hv : 0 < v) :
    instanteRetomadaDescarga inicio n q v
      = instanteFimFuncionarioDescarga inicio (maxChunk n q) v
    ∧ maxChunk n q = (n + q - 1) / q
    ∧ ∀ k ∈ arraySplitSizes n q,
        instanteFimFuncionarioDescarga inicio k v ≤ instanteRetomadaDescarga inicio n q v := by
  have hmono : Monotone (fun k : ℕ => instanteFimFuncionarioDescarga inicio k v) := by
    intro a b hab
    simp only [instanteFimFuncionarioDescarga]
    have h1 : (0 : ℚ) ≤ 1 / v := le_of_lt (by positivity)
    have h2 : (a : ℚ) ≤ (b : ℚ) := by exact_mod_cast hab
    nlinarith
  have hzero : instanteFimFuncionarioDescarga inicio 0 v = inicio := by
    simp [instanteFimFuncionarioDescarga]
  have hcomm : ∀ l : List ℕ,
      (l.map (fun k => instanteFimFuncionarioDescarga inicio k v)).foldr max inicio
        = instanteFimFuncionarioDescarga inicio (l.foldr max 0) v := by
    intro l
    induction l with
    | nil => simpa using hzero.symm
    | cons x t ih =>
      simp only [List.map_cons, List.foldr_cons, ih]
      exact (hmono.map_max).symm
  refine ⟨?_, maxChunk_eq_ceil n q hq, ?_⟩
  · rw [instanteRetomadaDescarga, instanteAllOf, maxChunk]
    exact hcomm _
  · intro k hk
    rw [instanteRetomadaDescarga, instanteAllOf, hcomm]
    exact hmono (le_foldr_max hk)

/-- Witness for `allOf_descarga_fires_no_maximo`: an unload of 13 boxes split
among 4 workers at unload speed 12 boxes per hour makes the crew resume
exactly 4/12 hours after the sub-processes start. -/
theorem allOf_descarga_fires_no_maximo_witness :
    instanteRetomadaDescarga 0 13 4 12 = instanteFimFuncionarioDescarga 0 (maxChunk 13 4) 12
    ∧ maxChunk 13 4 = (13 + 4 - 1) / 4 := by
  have h := allOf_descarga_fires_no_maximo 0 13 4 12 (by norm_num) (by norm_num)
  exact ⟨h.1, h.2.1⟩

/-! ## Claims C5 and C6: the Resource Pool

Modelled from the spec (§4.3): the resource pool primitive is part of the
simulation core, absent from the source tree.  `acquire()` fires immediately
and increments the holder count when `holders < capacity`, otherwise the
request is appended to the FIFO wait queue; `release()` decrements holders
and, if the wait queue is non-empty, pops the oldest request, fires it and
re-increments holders atomically; releasing beyond zero holders is a
synchronous protocol error.  The scenario instantiations are
`simpy.Resource(env, capacity=7)` (washing machines), `capacity=12`
(baskets), `capacity=2` (dryers) in `lavanderia.py` lines 30-32, and
`capacity=3` (doctors), `capacity=2` (receptionists) in `clinica_medica.py`
lines 30-31; `_processo_lavagem` and `_processo_atendimento` drive them
through request/release pairs only. -/

/-- Modelled from the spec: state of a Resource Pool.  `users` is the holder
count (`count` in the source introspection) and `queue` holds the pending
acquire-request ids, oldest first. -/
structure Recurso where
  capacity : ℕ
  users : ℕ
  queue : List ℕ
  deriving DecidableEq

/-- An operation performed on a resource by some process: an acquire request
(carrying an id that identifies the requester) or a release. -/
inductive OpRecurso
  | request (id : ℕ)
  | release
  deriving DecidableEq

/-- Execution record of a resource: its state, the requests granted from the
wait queue by releases (in grant order), and the requests that were appended
to the wait queue (in arrival order). -/
structure ResultadoRecurso where
  recurso : Recurso
  concedidosFila : List ℕ
  enfileirados : List ℕ
  deriving DecidableEq

/-- A fresh resource of the given capacity: no holders, empty wait queue. -/
def Recurso.init (cap : ℕ) : Recurso := ⟨cap, 0, []⟩

/-- Modelled from the spec: one step of the resource protocol.  `none` is
the synchronous protocol error (releasing beyond zero holders). -/
def passoRecurso (st : ResultadoRecurso) : OpRecurso → Option ResultadoRecurso
  | .request id =>
      let r := st.recurso
      if r.users < r.capacity then
        -- acquire fires immediately, same step, incrementing holders
        some { st with recurso := { r with users := r.users + 1 } }
      else
        -- otherwise the request joins the tail of the FIFO wait queue
        some { st with recurso := { r with queue := r.queue ++ [id] },
                       enfileirados := st.enfileirados ++ [id] }
  | .release =>
      let r := st.recurso
      if r.users = 0 then none
      else
        match r.queue with
        | [] => some { st with recurso := { r with users := r.users - 1 } }
        | id :: rest =>
            -- release decrements holders, pops the oldest pending request,
            -- fires it and re-increments holders within the same step
            some { st with recurso := { r with queue := rest },
                           concedidosFila := st.concedidosFila ++ [id] }

/-- Run a resource through a sequence of operations starting from `st`;
`none` propagates the synchronous protocol error. -/
def execRecursoDe (st : ResultadoRecurso) : List OpRecurso → Option ResultadoRecurso
  | [] => some st
  | op :: rest =>
    match passoRecurso st op with
    | none => none
    | some st1 => execRecursoDe st1 rest

/-- Run a fresh resource of capacity `cap` through a sequence of operations. -/
def execRecurso (cap : ℕ) (ops : List OpRecurso) : Option ResultadoRecurso :=
  execRecursoDe ⟨Recurso.init cap, [], []⟩ ops

theorem passoRecurso_capacity {st st2 : ResultadoRecurso} {op : OpRecurso}
    (h : passoRecurso st op = some st2) : st2.recurso.capacity = st.recurso.capacity := by
  cases op with
  | request id =>
    simp only [passoRecurso] at h
    split at h <;> (simp only [Option.some.injEq] at h; subst h; rfl)
  | release =>
    simp only [passoRecurso] at h
    split at h
    · exact absurd h (by simp)
    · split at h <;> (simp only [Option.some.injEq] at h; subst h; rfl)

theorem passoRecurso_users_le {st st2 : ResultadoRecurso} {op : OpRecurso}
    (hinv : st.recurso.users ≤ st.recurso.capacity)
    (h : passoRecurso st op = some st2) : st2.recurso.users ≤ st2.recurso.capacity := by
  cases op with
  | request id =>
    simp only [passoRecurso] at h
    split at h
    · simp only [Option.some.injEq] at h
      subst h
      show st.recurso.users + 1 ≤ st.recurso.capacity
      omega
    · simp only [Option.some.injEq] at h
      subst h
      exact hinv
  | release =>
    simp only [passoRecurso] at h
    split at h
    · exact absurd h (by simp)
    · split at h
      · simp only [Option.some.injEq] at h
        subst h
        show st.recurso.users - 1 ≤ st.recurso.capacity
        omega
      · simp only [Option.some.injEq] at h
        subst h
        exact hinv

theorem execRecursoDe_inv (ops : List OpRecurso) :
    ∀ st0 st : ResultadoRecurso, st0.recurso.users ≤ st0.recurso.capacity →
      execRecursoDe st0 ops = some st → st.recurso.users ≤ st.recurso.capacity := by
  induction ops with
  | nil =>
    intro st0 st h0 h
    simp only [execRecursoDe, Option.some.injEq] at h
    subst h
    exact h0
  | cons op rest ih =>
    intro st0 st h0 h
    simp only [execRecursoDe] at h
    cases hstep : passoRecurso st0 op with
    | none => rw [hstep] at h; exact absurd h (by simp)
    | some st1 =>
      rw [hstep] at h
      exact ih st1 st (passoRecurso_users_le h0 hstep) h

theorem execRecursoDe_capacity (ops : List OpRecurso) :
    ∀ st0 st : ResultadoRecurso, execRecursoDe st0 ops = some st →
      st.recurso.capacity = st0.recurso.capacity := by
  induction ops with
  | nil =>
    intro st0 st h
    simp only [execRecursoDe, Option.some.injEq] at h
    subst h
    rfl
  | cons op rest ih =>
    intro st0 st h
    simp only [execRecursoDe] at h
    cases hstep : passoRecurso st0 op with
    | none => rw [hstep] at h; exact absurd h (by simp)
    | some st1 =>
      rw [hstep] at h
      rw [ih st1 st h, passoRecurso_capacity hstep]

/-- Claim C5: for every Resource of capacity `N` (the laundromat's 7
machines, 12 baskets and 2 dryers, and the clinic's 3 doctors and 2
receptionists are `Recurso.init 7`, `12`, `2`, `3` and `2`), after every
sequence of acquire/release operations that does not hit the synchronous
release-protocol error, the holder count never exceeds `N`, no matter how
many processes have requested the resource. -/
theorem recurso_users_nunca_excede_capacidade (cap : ℕ) (ops : List OpRecurso)
    (st : ResultadoRecurso) (h : execRecurso cap ops = some st) :
    st.recurso.users ≤ cap ∧ st.recurso.capacity = cap := by
  have h1 := execRecursoDe_inv ops ⟨Recurso.init cap, [], []⟩ st (by simp [Recurso.init]) h
  have h2 := execRecursoDe_capacity ops ⟨Recurso.init cap, [], []⟩ st h
  simp only [Recurso.init] at h2
  exact ⟨h2 ▸ h1, h2⟩

/-- Witness for `recurso_users_nunca_excede_capacidade`: a capacity-2
resource (the laundromat's dryers and the clinic's receptionists) with three
simultaneous requesters holds at most 2. -/
theorem recurso_users_nunca_excede_capacidade_witness :
    execRecurso 2 [.request 0, .request 1, .request 2, .release]
      = some ⟨⟨2, 2, []⟩, [2], [2]⟩
    ∧ (⟨⟨2, 2, []⟩, [2], [2]⟩ : ResultadoRecurso).recurso.users ≤ 2 := by
  refine ⟨by decide, ?_⟩
  exact (recurso_users_nunca_excede_capacidade 2
    [.request 0, .request 1, .request 2, .release] ⟨⟨2, 2, []⟩, [2], [2]⟩ (by decide)).1

/-- Claim C6: releases grant the resource in exactly the order the waiting
requests were made: the queued grants followed by the still-pending queue
always equal the arrival log of queued requests, so every release with a
non-empty wait queue dequeues and fires the oldest pending request, and no
request is ever satisfied while an older pending one remains unsatisfied. -/
theorem recurso_release_fifo (cap : ℕ) (ops : List OpRecurso)
    (st : ResultadoRecurso) (h : execRecurso cap ops = some st) :
    st.concedidosFila ++ st.recurso.queue = st.enfileirados := by
  have key : ∀ ops2 : List OpRecurso, ∀ st0 st2 : ResultadoRecurso,
      st0.concedidosFila ++ st0.recurso.queue = st0.enfileirados →
      execRecursoDe st0 ops2 = some st2 →
      st2.concedidosFila ++ st2.recurso.queue = st2.enfileirados := by
    intro ops2
    induction ops2 with
    | nil =>
      intro st0 st2 h0 h2
      simp only [execRecursoDe, Option.some.injEq] at h2
      subst h2
      exact h0
    | cons op rest ih =>
      intro st0 st2 h0 h2
      simp only [execRecursoDe] at h2
      cases hstep : passoRecurso st0 op with
      | none => rw [hstep] at h2; exact absurd h2 (by simp)
      | some st1 =>
        rw [hstep] at h2
        refine ih st1 st2 ?_ h2
        cases op with
        | request id =>
          simp only [passoRecurso] at hstep
          split at hstep
          · simp only [Option.some.injEq] at hstep
            subst hstep
            exact h0
          · simp only [Option.some.injEq] at hstep
            subst hstep
            show st0.concedidosFila ++ (st0.recurso.queue ++ [id]) = st0.enfileirados ++ [id]
            rw [← List.append_assoc, h0]
        | release =>
          simp only [passoRecurso] at hstep
          split at hstep
          · exact absurd hstep (by simp)
          · split at hstep
            · simp only [Option.some.injEq] at hstep
              subst hstep
              exact h0
            · rename_i id2 rest2 heq
              simp only [Option.some.injEq] at hstep
              subst hstep
              show (st0.concedidosFila ++ [id2]) ++ rest2 = st0.enfileirados
              rw [heq] at h0
              rw [List.append_assoc, List.singleton_append]
              exact h0
  exact key ops ⟨Recurso.init cap, [], []⟩ st (by simp [Recurso.init]) h

/-! ## Claims C2 and C3: events, the renewable gate, and AnyOf

Modelled from the spec (§3 Event, §4.6 Event Combinators, §7a): the event
primitive and the combinators are part of the core, absent from the source
tree.  An Event is single-fire (firing a fired Event is a synchronous
error); waiters registered on it are resumed with its outcome at the
virtual time it fires; a fired Event is immutable.  The renewable-gate
pattern appears in `centro_distribuicao.py` lines 244-246 and 261-263
(`succeed` the finish event, then store fresh events in the same attribute
slots) and in `montagem.py` lines 191-192 (`self._evento_usinagem.succeed()`
followed by `self._evento_usinagem = env.event()`). -/

/-- State of the event subsystem: an id allocator (each `env.event()` call
returns a fresh id), the fired events with their outcome values, the waiter
registrations (event id, process id) in registration order, the attribute
slot holding the current gate event, the log of process resumptions
(process id, value delivered, virtual time), and the virtual clock. -/
structure SistemaEventos where
  nextId : ℕ
  disparados : List (ℕ × Volumes)
  esperas : List (ℕ × ℕ)
  slot : ℕ
  retomadas : List (ℕ × Volumes × ℚ)
  agora : ℚ
  deriving DecidableEq

/-- Well-formedness: every event id mentioned anywhere has been allocated. -/
def BemFormado (s : SistemaEventos) : Prop :=
  (∀ p ∈ s.disparados, p.1 < s.nextId)
  ∧ (∀ p ∈ s.esperas, p.1 < s.nextId)
  ∧ s.slot < s.nextId

instance (s : SistemaEventos) : Decidable (BemFormado s) := by
  unfold BemFormado; infer_instance

/-- Modelled from the spec: `succeed(value=v)` on event `e`.  Firing is an
error when the event was already fired (single-fire) or never allocated;
otherwise the event becomes fired with outcome `v`, and every waiter
registered on it is resumed with `v` at the current virtual time (the event
is processed in the same step it is triggered). -/
def disparaEvento (s : SistemaEventos) (e : ℕ) (v : Volumes) : Option SistemaEventos :=
  if e < s.nextId ∧ (s.disparados.lookup e).isNone then
    some { s with
      disparados := s.disparados ++ [(e, v)],
      retomadas := s.retomadas
        ++ (s.esperas.filter (fun p => p.1 = e)).map (fun p => (p.2, v, s.agora)),
      esperas := s.esperas.filter (fun p => p.1 ≠ e) }
  else none

/-- Translation of the slot replacement (`self._evento_... = env.event()`):
a fresh pending event is allocated and stored in the attribute slot.
Nothing else of the state is touched. -/
def substituiSlot (s : SistemaEventos) : SistemaEventos :=
  { s with slot := s.nextId, nextId := s.nextId + 1 }

/-- Translation of the renewable-gate pattern (`centro_distribuicao.py`
lines 244-246, `montagem.py` lines 191-192): fire the event currently in
the slot, then store a freshly created pending event in the same slot. -/
def renovaGate (s : SistemaEventos) (v : Volumes) : Option SistemaEventos :=
  match disparaEvento s s.slot v with
  | none => none
  | some s1 => some (substituiSlot s1)

/-- Operations the rest of a run may perform on the event subsystem. -/
inductive OpEventos
  | espera (pid : ℕ)
  | avanca (d : ℚ)
  | dispara (e : ℕ) (v : Volumes)
  | renova (v : Volumes)
  deriving DecidableEq

/-- One step of the event subsystem: a process yields the current slot event
(registering as a waiter), the virtual clock advances by a non-negative
delay, an event is fired, or the gate is renewed. -/
def passoEventos (s : SistemaEventos) : OpEventos → Option SistemaEventos
  | .espera pid => some { s with esperas := s.esperas ++ [(s.slot, pid)] }
  | .avanca d => if 0 ≤ d then some { s with agora := s.agora + d } else none
  | .dispara e v => disparaEvento s e v
  | .renova v => renovaGate s v

/-- Run the event subsystem through a sequence of operations. -/
def execEventos (s : SistemaEventos) : List OpEventos → Option SistemaEventos
  | [] => some s
  | op :: rest =>
    match passoEventos s op with
    | none => none
    | some s1 => execEventos s1 rest

theorem lookup_append_some {l l2 : List (ℕ × Volumes)} {e : ℕ} {v : Volumes}
    (h : l.lookup e = some v) : (l ++ l2).lookup e = some v := by
  induction l with
  | nil => exact absurd h (by simp)
  | cons p t ih =>
    obtain ⟨k, b⟩ := p
    rw [List.cons_append]
    simp only [List.lookup] at h ⊢
    cases hk : (e == k) with
    | true => simp only [hk] at h ⊢; exact h
    | false => simp only [hk] at h ⊢; exact ih h

theorem lookup_eq_none_of_forall {l : List (ℕ × Volumes)} {e : ℕ}
    (h : ∀ p ∈ l, p.1 ≠ e) : l.lookup e = none := by
  induction l with
  | nil => rfl
  | cons p t ih =>
    obtain ⟨k, b⟩ := p
    simp only [List.lookup]
    cases hk : (e == k) with
    | true =>
      have hk2 : e = k := by simpa using hk
      exact absurd hk2.symm (h (k, b) (List.mem_cons_self _ _))
    | false =>
      simp only [hk]
      exact ih fun q hq => h q (List.mem_cons_of_mem _ hq)

theorem lookup_append_singleton_self {l : List (ℕ × Volumes)} {e : ℕ} {v : Volumes}
    (h : l.lookup e = none) : (l ++ [(e, v)]).lookup e = some v := by
  induction l with
  | nil => simp [List.lookup]
  | cons p t ih =>
    obtain ⟨k, b⟩ := p
    rw [List.cons_append]
    simp only [List.lookup] at h ⊢
    cases hk : (e == k) with
    | true => simp only [hk] at h; exact absurd h (by simp)
    | false => simp only [hk] at h ⊢; exact ih h

/-- Once fired, an event stays fired with the same value across any single
step of the subsystem. -/
theorem passoEventos_preserva_disparado {s s2 : SistemaEventos} {op : OpEventos}
    {e : ℕ} {v : Volumes} (hv : s.disparados.lookup e = some v)
    (h : passoEventos s op = some s2) : s2.disparados.lookup e = some v := by
  cases op with
  | espera pid =>
    simp only [passoEventos, Option.some.injEq] at h
    subst h
    exact hv
  | avanca d =>
    simp only [passoEventos] at h
    split at h
    · simp only [Option.some.injEq] at h; subst h; exact hv
    · exact absurd h (by simp)
  | dispara e2 v2 =>
    simp only [passoEventos, disparaEvento] at h
    split at h
    · simp only [Option.some.injEq] at h
      subst h
      exact lookup_append_some hv
    · exact absurd h (by simp)
  | renova v2 =>
    simp only [passoEventos, renovaGate] at h
    cases hd : disparaEvento s s.slot v2 with
    | none => rw [hd] at h; exact absurd h (by simp)
    | some s1 =>
      rw [hd] at h
      simp only [Option.some.injEq] at h
      subst h
      simp only [disparaEvento] at hd
      split at hd
      · simp only [Option.some.injEq] at hd
        subst hd
        exact lookup_append_some hv
      · exact absurd hd (by simp)

/-- A resumption already logged is never removed by a later step. -/
theorem passoEventos_preserva_retomada {s s2 : SistemaEventos} {op : OpEventos}
    {r : ℕ × Volumes × ℚ} (hr : r ∈ s.retomadas)
    (h : passoEventos s op = some s2) : r ∈ s2.retomadas := by
  cases op with
  | espera pid =>
    simp only [passoEventos, Option.some.injEq] at h
    subst h
    exact hr
  | avanca d =>
    simp only [passoEventos] at h
    split at h
    · simp only [Option.some.injEq] at h; subst h; exact hr
    · exact absurd h (by simp)
  | dispara e2 v2 =>
    simp only [passoEventos, disparaEvento] at h
    split at h
    · simp only [Option.some.injEq] at h
      subst h
      exact List.mem_append_left _ hr
    · exact absurd h (by simp)
  | renova v2 =>
    simp only [passoEventos, renovaGate] at h
    cases hd : disparaEvento s s.slot v2 with
    | none => rw [hd] at h; exact absurd h (by simp)
    | some s1 =>
      rw [hd] at h
      simp only [Option.some.injEq] at h
      subst h
      simp only [disparaEvento] at hd
      split at hd
      · simp only [Option.some.injEq] at hd
        subst hd
        exact List.mem_append_left _ hr
      · exact absurd hd (by simp)

theorem execEventos_preserva_disparado {σ : List OpEventos} :
    ∀ {s s2 : SistemaEventos} {e : ℕ} {v : Volumes},
      s.disparados.lookup e = some v → execEventos s σ = some s2 →
      s2.disparados.lookup e = some v := by
  induction σ with
  | nil =>
    intro s s2 e v hv h
    simp only [execEventos, Option.some.injEq] at h
    subst h
    exact hv
  | cons op rest ih =>
    intro s s2 e v hv h
    simp only [execEventos] at h
    cases hstep : passoEventos s op with
    | none => rw [hstep] at h; exact absurd h (by simp)
    | some s1 =>
      rw [hstep] at h
      exact ih (passoEventos_preserva_disparado hv hstep) h

theorem execEventos_preserva_retomada {σ : List OpEventos} :
    ∀ {s s2 : SistemaEventos} {r : ℕ × Volumes × ℚ},
      r ∈ s.retomadas → execEventos s σ = some s2 → r ∈ s2.retomadas := by
  induction σ with
  | nil =>
    intro s s2 r hr h
    simp only [execEventos, Option.some.injEq] at h
    subst h
    exact hr
  | cons op rest ih =>
    intro s s2 r hr h
    simp only [execEventos] at h
    cases hstep : passoEventos s op with
    | none => rw [hstep] at h; exact absurd h (by simp)
    | some s1 =>
      rw [hstep] at h
      exact ih (passoEventos_preserva_retomada hr hstep) h

/-- Claim C3: renewing a gate (firing the finish event and storing a fresh
pending event in the same attribute slot, as in
`_executa_funcionarios__descarga` and `ModeloMontagem2._executa_fixacao`)
leaves the old event fired with its value forever (across any further
operations, during which firing the old event again is a synchronous
error), resumes every process that was waiting on the old event at the
renewal's virtual time with the old event's outcome, performs the slot
replacement without touching the fired set, the waiter registrations, the
resumption log or the clock, and leaves the fresh event pending with no
waiters. -/
theorem gate_renovacao (s : SistemaEventos) (v : Volumes) (s2 : SistemaEventos)
    (hwf : BemFormado s) (h : renovaGate s v = some s2) :
    (∀ σ s3, execEventos s2 σ = some s3 →
        s3.disparados.lookup s.slot = some v
        ∧ (∀ v2, disparaEvento s3 s.slot v2 = none)
        ∧ ∀ pid, (s.slot, pid) ∈ s.esperas → (pid, v, s.agora) ∈ s3.retomadas)
    ∧ (∀ s1, disparaEvento s s.slot v = some s1 →
        s2 = substituiSlot s1
        ∧ s2.disparados = s1.disparados ∧ s2.esperas = s1.esperas
        ∧ s2.retomadas = s1.retomadas ∧ s2.agora = s1.agora)
    ∧ s2.disparados.lookup s2.slot = none
    ∧ (∀ pid, (s2.slot, pid) ∉ s2.esperas) := by
  obtain ⟨hwf1, hwf2, hwf3⟩ := hwf
  simp only [renovaGate] at h
  cases hd : disparaEvento s s.slot v with
  | none => rw [hd] at h; exact absurd h (by simp)
  | some s1 =>
    rw [hd] at h
    simp only [Option.some.injEq] at h
    subst h
    have hd2 := hd
    simp only [disparaEvento] at hd2
    split at hd2
    case isFalse => exact absurd hd2 (by simp)
    case isTrue hcond =>
      simp only [Option.some.injEq] at hd2
      subst hd2
      refine ⟨?_, ?_, ?_, ?_⟩
      · intro σ s3 h3
        have hsome : (substituiSlot
            { s with
              disparados := s.disparados ++ [(s.slot, v)],
              retomadas := s.retomadas
                ++ (s.esperas.filter (fun p => p.1 = s.slot)).map (fun p => (p.2, v, s.agora)),
              esperas := s.esperas.filter (fun p => p.1 ≠ s.slot) }).disparados.lookup s.slot
            = some v := by
          show (s.disparados ++ [(s.slot, v)]).lookup s.slot = some v
          exact lookup_append_singleton_self (by simpa using hcond.2)
        refine ⟨execEventos_preserva_disparado hsome h3, ?_, ?_⟩
        · intro v2
          have hlook := execEventos_preserva_disparado hsome h3
          simp only [disparaEvento, hlook]
          simp
        · intro pid hpid
          have hmem : (pid, v, s.agora) ∈
              (s.esperas.filter (fun p => p.1 = s.slot)).map (fun p => (p.2, v, s.agora)) := by
            refine List.mem_map.mpr ⟨(s.slot, pid), ?_, rfl⟩
            exact List.mem_filter.mpr ⟨hpid, by simp⟩
          exact execEventos_preserva_retomada (List.mem_append_right _ hmem) h3
      · intro s1b hs1b
        simp only [Option.some.injEq] at hs1b
        subst hs1b
        exact ⟨rfl, rfl, rfl, rfl, rfl⟩
      · show (s.disparados ++ [(s.slot, v)]).lookup s.nextId = none
        apply lookup_eq_none_of_forall
        intro p hp
        rcases List.mem_append.mp hp with hmem | hmem
        · exact Nat.ne_of_lt (hwf1 p hmem)
        · simp only [List.mem_singleton] at hmem
          subst hmem
          exact Nat.ne_of_lt hwf3
      · intro pid hpid
        have hmem := List.mem_filter.mp hpid
        exact absurd (hwf2 _ hmem.1) (by simp [substituiSlot])

/-- Witness for `gate_renovacao`: a gate with one waiter (process 5) is
renewed at time 2 with outcome [1]; the waiter is resumed with ([1], 2),
the old event 0 stays fired through a later clock advance and an attempt to
fire it again fails, and the fresh event 1 is pending with no waiters. -/
theorem gate_renovacao_witness :
    BemFormado ⟨1, [], [(0, 5)], 0, [], 2⟩
    ∧ renovaGate ⟨1, [], [(0, 5)], 0, [], 2⟩ [1]
        = some ⟨2, [(0, [1])], [], 1, [(5, [1], 2)], 2⟩
    ∧ ((⟨2, [(0, [1])], [], 1, [(5, [1], 2)], 2⟩ : SistemaEventos).disparados.lookup
        (⟨2, [(0, [1])], [], 1, [(5, [1], 2)], 2⟩ : SistemaEventos).slot = none) := by
  refine ⟨by decide, by decide, ?_⟩
  exact (gate_renovacao ⟨1, [], [(0, 5)], 0, [], 2⟩ [1]
    ⟨2, [(0, [1])], [], 1, [(5, [1], 2)], 2⟩ (by decide) (by decide)).2.2.1

/-- Modelled from the spec (§4.6): an AnyOf condition over member events,
remembering its construction instant.  In
`_processa_funcionarios__carregamento` (line 268) the crew constructs
`self._evento_iniciar_carga | self._evento_iniciar_descarga` at the top of
each loop iteration; in `_processa_van` (line 329) a van may have fired the
load gate while the crew was still handling a solo unload, so a member can
already be fired when the condition is constructed. -/
structure CondicaoAnyOf where
  membros : List ℕ
  instanteConstrucao : ℚ
  deriving DecidableEq

/-- Construction of the AnyOf at the current virtual time. -/
def constroiAnyOf (s : SistemaEventos) (membros : List ℕ) : CondicaoAnyOf :=
  ⟨membros, s.agora⟩

/-- Modelled from the spec: AnyOf fires the instant any member fires, so a
member already fired at construction time triggers it immediately. -/
def anyOfJaDisparado (s : SistemaEventos) (c : CondicaoAnyOf) : Bool :=
  c.membros.any (fun e => (s.disparados.lookup e).isSome)

/-- Modelled from the spec: the instant the AnyOf fires when some member is
already fired at construction: the same step, hence the construction
instant itself; otherwise it fires only upon a later member firing (`none`
here, as no such firing is part of this state). -/
def instanteDisparoAnyOf (s : SistemaEventos) (c : CondicaoAnyOf) : Option ℚ :=
  if anyOfJaDisparado s c then some c.instanteConstrucao else none

/-- Modelled from the spec: the outcome of the condition is the mapping of
all members fired so far, each to the value it was fired with. -/
def resultadoAnyOf (s : SistemaEventos) (c : CondicaoAnyOf) : List (ℕ × Volumes) :=
  c.membros.filterMap (fun e => (s.disparados.lookup e).map (fun v => (e, v)))

/-- Claim C2: whenever the crew's AnyOf wait is evaluated with a member
event already fired at construction time (e.g. the load-start event fired
while a solo unload was being handled), the combinator fires immediately at
the construction instant (the same step), and its outcome is exactly the
mapping of all members fired so far, each mapped to the volumes list it was
fired with. -/
theorem anyOf_membro_ja_disparado (s : SistemaEventos) (membros : List ℕ)
    (e : ℕ) (v : Volumes) (hmem : e ∈ membros)
    (hv : s.disparados.lookup e = some v) :
    instanteDisparoAnyOf s (constroiAnyOf s membros) = some s.agora
    ∧ (e, v) ∈ resultadoAnyOf s (constroiAnyOf s membros)
    ∧ ∀ e2 v2, ((e2, v2) ∈ resultadoAnyOf s (constroiAnyOf s membros)
        ↔ e2 ∈ membros ∧ s.disparados.lookup e2 = some v2) := by
  have hany : anyOfJaDisparado s (constroiAnyOf s membros) = true := by
    apply List.any_eq_true.mpr
    exact ⟨e, hmem, by rw [hv]; rfl⟩
  refine ⟨?_, ?_, ?_⟩
  · rw [instanteDisparoAnyOf, if_pos hany]
    rfl
  · apply List.mem_filterMap.mpr
    exact ⟨e, hmem, by rw [hv]; rfl⟩
  · intro e2 v2
    constructor
    · intro hin
      obtain ⟨a, ha, hfa⟩ := List.mem_filterMap.mp hin
      cases hla : s.disparados.lookup a with
      | none => rw [hla] at hfa; exact absurd hfa (by simp)
      | some w =>
        rw [hla] at hfa
        simp at hfa
        obtain ⟨rfl, rfl⟩ := hfa
        exact ⟨ha, hla⟩
    · intro ⟨hin, hl⟩
      apply List.mem_filterMap.mpr
      exact ⟨e2, hin, by rw [hl]; rfl⟩

/-- Witness for `anyOf_membro_ja_disparado`: a state at time 3 where member
0 (the load gate) fired with volumes [5] and member 1 (the unload gate) is
pending: the condition fires at time 3 with outcome containing (0, [5]). -/
theorem anyOf_membro_ja_disparado_witness :
    instanteDisparoAnyOf ⟨2, [(0, [5])], [], 1, [], 3⟩
        (constroiAnyOf ⟨2, [(0, [5])], [], 1, [], 3⟩ [0, 1]) = some 3
    ∧ (0, [5]) ∈ resultadoAnyOf ⟨2, [(0, [5])], [], 1, [], 3⟩
        (constroiAnyOf ⟨2, [(0, [5])], [], 1, [], 3⟩ [0, 1]) := by
  have h := anyOf_membro_ja_disparado ⟨2, [(0, [5])], [], 1, [], 3⟩ [0, 1] 0 [5]
    (by decide) (by decide)
  exact ⟨h.1, h.2.1⟩

/-! ## Claim C4: determinism of the fired order, and the unseeded models

Modelled from the spec (§3 Scheduled entry, §4.1): the scheduler owns an
ordered queue of pending (time, priority, sequence) entries and repeatedly
pops the minimal entry in lexicographic (time, priority, seq) order; the
sequence number is a strictly increasing counter assigned at scheduling
time, so the fired order is fully determined by the set of scheduled
entries.

The laundromat and clinic models, however, take no seed at all:
`ModeloLavanderia.__init__` (lavanderia.py lines 25-32) and
`ModeloClinicaMedica.__init__` (clinica_medica.py lines 25-31) call
`numpy.random.default_rng()` with no argument, drawing fresh
operating-system entropy on every construction, and both also use the
global `random.uniform` (lavanderia lines 69 and 72, clinica line 90). -/

/-- Modelled from the spec: a pending scheduler entry (time, priority,
sequence).  Priority distinguishes urgent same-time continuations; the
sequence breaks remaining ties. -/
structure Entrada where
  tempo : ℚ
  prioridade : ℕ
  seq : ℕ
  deriving DecidableEq

/-- Strict processing order of the scheduler: lexicographic on
(time, priority, sequence). -/
def entradaAntes (a b : Entrada) : Prop :=
  a.tempo < b.tempo
  ∨ (a.tempo = b.tempo ∧ (a.prioridade < b.prioridade
      ∨ (a.prioridade = b.prioridade ∧ a.seq < b.seq)))

instance : DecidableRel entradaAntes := by
  intro a b
  unfold entradaAntes
  infer_instance

theorem entradaAntes_asymm {a b : Entrada} (h1 : entradaAntes a b)
    (h2 : entradaAntes b a) : False := by
  unfold entradaAntes at h1 h2
  rcases h1 with h1 | ⟨e1, h1⟩ <;> rcases h2 with h2 | ⟨e2, h2⟩
  · exact absurd (h1.trans h2) (lt_irrefl _)
  · rw [e2] at h1; exact absurd h1 (lt_irrefl _)
  · rw [e1] at h2; exact absurd h2 (lt_irrefl _)
  · rcases h1 with h1 | ⟨f1, h1⟩ <;> rcases h2 with h2 | ⟨f2, h2⟩ <;> omega

theorem entradaAntes_total {a b : Entrada} (h : a ≠ b) :
    entradaAntes a b ∨ entradaAntes b a := by
  unfold entradaAntes
  obtain ⟨ta, pa, sa⟩ := a
  obtain ⟨tb, pb, sb⟩ := b
  rcases lt_trichotomy ta tb with ht | ht | ht
  · exact Or.inl (Or.inl ht)
  · subst ht
    rcases Nat.lt_trichotomy pa pb with hp | hp | hp
    · exact Or.inl (Or.inr ⟨rfl, Or.inl hp⟩)
    · subst hp
      rcases Nat.lt_trichotomy sa sb with hs | hs | hs
      · exact Or.inl (Or.inr ⟨rfl, Or.inr ⟨rfl, hs⟩⟩)
      · exact absurd (by rw [hs]) h
      · exact Or.inr (Or.inr ⟨rfl, Or.inr ⟨rfl, hs⟩⟩)
    · exact Or.inr (Or.inr ⟨rfl, Or.inl hp⟩)
  · exact Or.inr (Or.inl ht)

/-- Modelled from the spec: the run loop pops an entry that precedes every
other pending entry in (time, priority, seq) order. -/
def PassoEscalonador (q : List Entrada) (e : Entrada) : Prop :=
  e ∈ q ∧ ∀ x ∈ q, x = e ∨ entradaAntes e x

instance (q : List Entrada) (e : Entrada) : Decidable (PassoEscalonador q e) := by
  unfold PassoEscalonador
  infer_instance

/-- Relation between a queue of scheduled entries and the order in which
the run loop fires them: repeatedly pop a minimal entry until the queue is
empty. -/
inductive Disparos : List Entrada → List Entrada → Prop
  | vazio : Disparos [] []
  | passo {q : List Entrada} {e : Entrada} {t : List Entrada} :
      PassoEscalonador q e → Disparos (q.erase e) t → Disparos q (e :: t)

theorem passoEscalonador_unico {q : List Entrada} {e1 e2 : Entrada}
    (h1 : PassoEscalonador q e1) (h2 : PassoEscalonador q e2) : e1 = e2 := by
  by_contra hne
  rcases h1.2 e2 h2.1 with heq | hlt
  · exact hne heq.symm
  · rcases h2.2 e1 h1.1 with heq | hlt2
    · exact hne heq
    · exact entradaAntes_asymm hlt hlt2

/-- Claim C4, amended: the fired order produced by the run loop is a
function of the queue of scheduled entries: two runs over the same
scheduled entries fire exactly the same sequence.  (For the seeded models
the entries themselves are fixed by the seed; the laundromat and the
clinic, which take no seed, are excluded — see the counterexample.) -/
theorem ordem_disparo_deterministica (q t1 t2 : List Entrada)
    (h1 : Disparos q t1) (h2 : Disparos q t2) : t1 = t2 := by
  induction h1 generalizing t2 with
  | vazio =>
    cases h2 with
    | vazio => rfl
    | passo hp _ => exact absurd hp.1 (by simp)
  | passo hp hrest ih =>
    cases h2 with
    | vazio => exact absurd hp.1 (by simp)
    | passo hp2 hrest2 =>
      have he := passoEscalonador_unico hp hp2
      subst he
      rw [ih _ hrest2]

/-- Witness for `ordem_disparo_deterministica`: two same-time entries, the
urgent one (priority 0, seq 1) fires before the normal one (priority 1,
seq 0); both derivations yield that order. -/
theorem ordem_disparo_deterministica_witness :
    ([⟨0, 0, 1⟩, ⟨0, 1, 0⟩] : List Entrada) = [⟨0, 0, 1⟩, ⟨0, 1, 0⟩] :=
  ordem_disparo_deterministica [⟨0, 1, 0⟩, ⟨0, 0, 1⟩] [⟨0, 0, 1⟩, ⟨0, 1, 0⟩]
    [⟨0, 0, 1⟩, ⟨0, 1, 0⟩]
    (Disparos.passo (by decide) (Disparos.passo (by decide) Disparos.vazio))
    (Disparos.passo (by decide) (Disparos.passo (by decide) Disparos.vazio))

/-- Translation of `ModeloLavanderia.__init__` (lavanderia.py lines 25-32):
the constructor takes no seed parameter and builds its generator with
`numpy.random.default_rng()` (no argument), which consumes fresh
operating-system entropy; the entropy-derived draw stream is therefore an
input of each construction, not something a caller can fix.  `rnd i`
models the i-th draw of `self._rnd.exponential(10)` (line 47), an
arbitrary value in the support of the exponential distribution. -/
structure ModeloLavanderia where
  rnd : ℕ → ℚ

/-- Construction of the laundromat model from the entropy stream consumed
by `default_rng()`. -/
def ModeloLavanderia.init (entropia : ℕ → ℚ) : ModeloLavanderia := ⟨entropia⟩

/-- Translation of the arrival loop of `ModeloLavanderia.inicia` (lines
34-47): consumer n+2 arrives `rnd n` minutes after consumer n+1 (the loop
yields `env.timeout(self._rnd.exponential(10))` between two consecutive
`env.process(self._processo_lavagem(...))` calls); `chegadaConsumidor m n`
is the virtual instant at which the (n+1)-st arrival event fires. -/
def chegadaConsumidor (m : ModeloLavanderia) : ℕ → ℚ
  | 0 => 0
  | n + 1 => chegadaConsumidor m n + m.rnd n

/-- Claim C4 counterexample: the laundromat model cannot be constructed
with a fixed random seed; two constructions (two runs of the script)
consume different entropy and already disagree on the virtual time of the
second arrival event, so the two runs do not fire identical event
sequences.  This refutes the claim as stated, which includes the laundromat
and clinic models. -/
theorem lavanderia_sem_seed_nao_reprodutivel :
    chegadaConsumidor (ModeloLavanderia.init (fun _ => 1)) 1
      ≠ chegadaConsumidor (ModeloLavanderia.init (fun _ => 2)) 1 := by
  show (0 : ℚ) + 1 ≠ 0 + 2
  norm_num

/-- Witness for `recurso_release_fifo`: spec scenario with K = 3 acquirers
on a capacity-1 resource; the two releases grant requests 1 then 2, exactly
the order in which they queued. -/
theorem recurso_release_fifo_witness :
    execRecurso 1 [.request 0, .request 1, .request 2, .release, .release]
      = some ⟨⟨1, 1, []⟩, [1, 2], [1, 2]⟩
    ∧ (⟨⟨1, 1, []⟩, [1, 2], [1, 2]⟩ : ResultadoRecurso).concedidosFila
        ++ (⟨⟨1, 1, []⟩, [1, 2], [1, 2]⟩ : ResultadoRecurso).recurso.queue
      = (⟨⟨1, 1, []⟩, [1, 2], [1, 2]⟩ : ResultadoRecurso).enfileirados := by
  refine ⟨by decide, ?_⟩
  exact recurso_release_fifo 1 [.request 0, .request 1, .request 2, .release, .release]
    ⟨⟨1, 1, []⟩, [1, 2], [1, 2]⟩ (by decide)

/-! ## Claim C9: the café glasses are always clean

Source: `bar_expresso.py`.  A `Copo` carries a boolean `limpo`; glasses are
created only in `inicia` (lines 102-104), always with `limpo=True`.  The
only other code touching `limpo` is `_processa_funcionario__preparo`
(lines 244-253): it reads `copo.limpo`, and inside the `not copo.limpo`
branch requests `_resource_lavagem` and sets `limpo = True`.  Nothing in
the file ever sets `limpo` to `False`, and `_resource_lavagem` is
requested nowhere else. -/

/-- State of the café glasses: the `limpo` flag of every created glass (in
creation order, so glass ids are list positions), and the number of
requests made so far on the sink resource `_resource_lavagem`. -/
structure EstadoBar where
  copos : List Bool
  pedidosLavagem : ℕ
  deriving DecidableEq

/-- The operations of `bar_expresso.py` that touch a glass's `limpo` flag
or the sink resource: creating a glass in `inicia`, and preparing an order
with a given glass in `_processa_funcionario__preparo` (the glass is either
fresh from `_store_copos` or reused from the client's previous order; both
are created glasses, identified here by position). -/
inductive OpBar
  | criaCopo
  | preparo (idx : ℕ)
  deriving DecidableEq

/-- Translation of the two glass-touching code paths: `inicia` appends
`Copo(id=..., limpo=True)` (lines 103-104); the preparo path (lines
244-253) tests `copo.limpo` and, only when it is false, requests the sink
resource, washes, and sets `limpo = True`.  Preparing with a glass that
was never created is `none` (cannot happen in the source; kept for
totality). -/
def passoBar (s : EstadoBar) : OpBar → Option EstadoBar
  | .criaCopo => some { s with copos := s.copos ++ [true] }
  | .preparo idx =>
    match s.copos.get? idx with
    | none => none
    | some limpo =>
      if limpo then some s
      else some { s with pedidosLavagem := s.pedidosLavagem + 1,
                         copos := s.copos.set idx true }

/-- Run the café glass state through a sequence of operations. -/
def execBarDe (s : EstadoBar) : List OpBar → Option EstadoBar
  | [] => some s
  | op :: rest =>
    match passoBar s op with
    | none => none
    | some s1 => execBarDe s1 rest

/-- Run from the initial state of `inicia`: no glasses yet, no sink
requests. -/
def execBar (ops : List OpBar) : Option EstadoBar :=
  execBarDe ⟨[], 0⟩ ops

theorem passoBar_inv {s s2 : EstadoBar} {op : OpBar}
    (hinv : (∀ c ∈ s.copos, c = true) ∧ s.pedidosLavagem = 0)
    (h : passoBar s op = some s2) :
    (∀ c ∈ s2.copos, c = true) ∧ s2.pedidosLavagem = 0 := by
  cases op with
  | criaCopo =>
    simp only [passoBar, Option.some.injEq] at h
    subst h
    refine ⟨?_, hinv.2⟩
    intro c hc
    rcases List.mem_append.mp hc with hc | hc
    · exact hinv.1 c hc
    · simpa using hc
  | preparo idx =>
    simp only [passoBar] at h
    cases hg : s.copos.get? idx with
    | none => rw [hg] at h; exact absurd h (by simp)
    | some limpo =>
      rw [hg] at h
      have hl : limpo = true := hinv.1 limpo (List.get?_mem hg)
      subst hl
      simp only [if_true] at h
      simp at h
      subst h
      exact hinv

/-- Claim C9: along every execution of the café model, every created glass
has `limpo = True` at every point (glasses are created clean and nothing
ever sets the flag to false), so the `not copo.limpo` washing branch of
`_processa_funcionario__preparo` is never taken and the sink resource
`_resource_lavagem` is never requested. -/
theorem bar_copos_sempre_limpos (ops : List OpBar) (s : EstadoBar)
    (h : execBar ops = some s) :
    (∀ c ∈ s.copos, c = true) ∧ s.pedidosLavagem = 0 := by
  have key : ∀ ops2 : List OpBar, ∀ s0 s2 : EstadoBar,
      ((∀ c ∈ s0.copos, c = true) ∧ s0.pedidosLavagem = 0) →
      execBarDe s0 ops2 = some s2 →
      (∀ c ∈ s2.copos, c = true) ∧ s2.pedidosLavagem = 0 := by
    intro ops2
    induction ops2 with
    | nil =>
      intro s0 s2 h0 h2
      simp only [execBarDe, Option.some.injEq] at h2
      subst h2
      exact h0
    | cons op rest ih =>
      intro s0 s2 h0 h2
      simp only [execBarDe] at h2
      cases hstep : passoBar s0 op with
      | none => rw [hstep] at h2; exact absurd h2 (by simp)
      | some s1 =>
        rw [hstep] at h2
        exact ih s1 s2 (passoBar_inv h0 hstep) h2
  exact key ops ⟨[], 0⟩ s ⟨by simp, rfl⟩ h

/-- Witness for `bar_copos_sempre_limpos`: two glasses created and used in
three preparos; both stay clean and the sink is never requested. -/
theorem bar_copos_sempre_limpos_witness :
    execBar [.criaCopo, .preparo 0, .criaCopo, .preparo 1, .preparo 0]
      = some ⟨[true, true], 0⟩
    ∧ (∀ c ∈ ([true, true] : List Bool), c = true)
    ∧ (⟨[true, true], 0⟩ : EstadoBar).pedidosLavagem = 0 := by
  refine ⟨by decide, ?_, ?_⟩
  · intro c hc
    have h := bar_copos_sempre_limpos [.criaCopo, .preparo 0, .criaCopo, .preparo 1, .preparo 0]
      ⟨[true, true], 0⟩ (by decide)
    exact h.1 c hc
  · exact (bar_copos_sempre_limpos [.criaCopo, .preparo 0, .criaCopo, .preparo 1, .preparo 0]
      ⟨[true, true], 0⟩ (by decide)).2

/-! ## Claim C10: at most one van fires the load gate per generation

Source: `centro_distribuicao.py`.  `inicia` creates the loading bay
`_resource_carga_vans = simpy.Resource(env, capacity=1)` (line 176).  A van
(`_processa_van`, lines 306-341) acquires the bay, obtains a `Carregamento`
from the store, fires `self._evento_iniciar_carga.succeed(value=...)`
(line 329), waits on `self._evento_finalizar_carga` (line 331), fires the
conclusion event and releases the bay on leaving the `with` block.  The
crew (`_executa_funcionarios__carga`, lines 257-263) fires the finish
event and renews both gate slots in one synchronous block with no yield in
between, so the generation counter advances before any waiting van
resumes.

The transition system below over-approximates the scheduling: any waiting
van may acquire the free bay (the source grants FIFO, which is one of
these behaviours), a bay holder may always obtain a `Carregamento` (in the
source it may also block, which only removes behaviours), and the crew may
observe a firing after any delay (covering the case where it is busy with
an unload).  Safety over the larger behaviour set implies safety of the
source's behaviours. -/

/-- Phase of a van in `_processa_van`: delivering (outside the `with`
block), waiting for the loading bay, holding the bay before firing the
load gate, or having fired generation `g` of the gate and waiting on the
matching finish event. -/
inductive FaseVan
  | entrega
  | esperaBaia
  | temBaia
  | aguardaFim (g : ℕ)
  deriving DecidableEq

/-- Phase of the crew's handling of the load gate: at the AnyOf wait, or
executing `_executa_funcionarios__carga` for the current firing. -/
inductive FaseEquipe
  | esperando
  | executando
  deriving DecidableEq

/-- Global state of the van/crew gate protocol: the generation of the
event currently stored in `_evento_iniciar_carga`, whether that generation
has been fired, the bay holder (capacity-1 resource), the van phases, the
crew phase, the log of generations fired (in firing order), and whether a
van ever called `succeed()` on an already-fired event. -/
structure EstadoCD where
  geracao : ℕ
  disparado : Bool
  baia : Option ℕ
  vans : List FaseVan
  equipe : FaseEquipe
  historico : List ℕ
  erro : Bool
  deriving DecidableEq

/-- Interleaved small-step transitions of vans and crew. -/
inductive PassoCD : EstadoCD → EstadoCD → Prop
  | pedeBaia (i : ℕ) (s : EstadoCD) :
      s.vans[i]? = some .entrega →
      PassoCD s { s with vans := s.vans.set i .esperaBaia }
  | ocupaBaia (i : ℕ) (s : EstadoCD) :
      s.vans[i]? = some .esperaBaia → s.baia = none →
      PassoCD s { s with baia := some i, vans := s.vans.set i .temBaia }
  | disparaCarga (i : ℕ) (s : EstadoCD) :
      s.vans[i]? = some .temBaia → s.baia = some i →
      PassoCD s { s with
        disparado := true,
        historico := s.historico ++ [s.geracao],
        erro := s.erro || s.disparado,
        vans := s.vans.set i (.aguardaFim s.geracao) }
  | equipeObserva (s : EstadoCD) :
      s.equipe = .esperando → s.disparado = true →
      PassoCD s { s with equipe := .executando }
  | equipeConclui (s : EstadoCD) :
      s.equipe = .executando →
      PassoCD s { s with equipe := .esperando, geracao := s.geracao + 1, disparado := false }
  | liberaBaia (i g : ℕ) (s : EstadoCD) :
      s.vans[i]? = some (.aguardaFim g) → s.baia = some i → g < s.geracao →
      PassoCD s { s with baia := none, vans := s.vans.set i .entrega }

/-- Initial state of `inicia`: fresh pending gate (generation 0), free bay,
all vans about to start their loop, crew at its wait. -/
def inicialCD (n : ℕ) : EstadoCD :=
  ⟨0, false, none, List.replicate n .entrega, .esperando, [], false⟩

/-- States reachable by the protocol with `n` vans. -/
inductive AlcancavelCD (n : ℕ) : EstadoCD → Prop
  | inicial : AlcancavelCD n (inicialCD n)
  | passo {s s2 : EstadoCD} : AlcancavelCD n s → PassoCD s s2 → AlcancavelCD n s2

/-- Inductive invariant of the gate protocol. -/
structure InvCD (s : EstadoCD) : Prop where
  semErro : s.erro = false
  baiaLivre : s.baia = none → s.disparado = false
  donoPreDisparo : ∀ i, s.baia = some i → s.vans[i]? = some FaseVan.temBaia →
    s.disparado = false
  disparadoDono : s.disparado = true →
    ∃ i, s.baia = some i ∧ s.vans[i]? = some (FaseVan.aguardaFim s.geracao)
  contaAtual : s.historico.count s.geracao = if s.disparado then 1 else 0
  contaFutura : ∀ g, s.geracao < g → s.historico.count g = 0
  contaPassada : ∀ g, g < s.geracao → s.historico.count g ≤ 1

theorem passoCD_inv {s s2 : EstadoCD} (inv : InvCD s) (h : PassoCD s s2) : InvCD s2 := by
  cases h with
  | pedeBaia i s hv =>
    refine ⟨inv.semErro, inv.baiaLivre, ?_, ?_, inv.contaAtual, inv.contaFutura,
      inv.contaPassada⟩
    · intro j hbj hfj
      by_cases hij : i = j
      · subst hij
        rw [List.getElem?_set_self'] at hfj
        rw [hv] at hfj
        exact absurd hfj (by simp)
      · rw [List.getElem?_set_ne hij] at hfj
        exact inv.donoPreDisparo j hbj hfj
    · intro hd
      obtain ⟨j, hbj, hfj⟩ := inv.disparadoDono hd
      have hij : i ≠ j := by
        intro hij
        subst hij
        rw [hv] at hfj
        exact absurd hfj (by simp)
      exact ⟨j, hbj, by rw [List.getElem?_set_ne hij]; exact hfj⟩
  | ocupaBaia i s hv hb =>
    have hd : s.disparado = false := inv.baiaLivre hb
    refine ⟨inv.semErro, fun _ => hd, fun _ _ _ => hd, ?_, inv.contaAtual,
      inv.contaFutura, inv.contaPassada⟩
    intro h2
    rw [hd] at h2
    exact absurd h2 (by simp)
  | disparaCarga i s hv hb =>
    have hd : s.disparado = false := inv.donoPreDisparo i hb hv
    refine ⟨?_, ?_, ?_, ?_, ?_, ?_, ?_⟩
    · show (s.erro || s.disparado) = false
      rw [inv.semErro, hd]
      rfl
    · intro h2
      rw [hb] at h2
      exact absurd h2 (by simp)
    · intro j hbj hfj
      rw [hb] at hbj
      have hij : i = j := Option.some.inj hbj
      subst hij
      rw [List.getElem?_set_self'] at hfj
      rw [hv] at hfj
      exact absurd hfj (by simp)
    · intro _
      refine ⟨i, hb, ?_⟩
      show (s.vans.set i (FaseVan.aguardaFim s.geracao))[i]? = some (FaseVan.aguardaFim s.geracao)
      rw [List.getElem?_set_self']
      rw [hv]
      rfl
    · show (s.historico ++ [s.geracao]).count s.geracao = 1
      rw [List.count_append]
      have h0 : s.historico.count s.geracao = 0 := by
        have := inv.contaAtual
        rw [hd] at this
        simpa using this
      rw [h0]
      simp [List.count_singleton]
    · intro g hg
      show (s.historico ++ [s.geracao]).count g = 0
      rw [List.count_append, inv.contaFutura g hg]
      have : s.geracao ≠ g := Nat.ne_of_lt hg
      simp [List.count_singleton, this]
    · intro g hg
      show (s.historico ++ [s.geracao]).count g ≤ 1
      rw [List.count_append]
      have h1 := inv.contaPassada g hg
      have : s.geracao ≠ g := Nat.ne_of_gt hg
      simp [List.count_singleton, this]
      omega
  | equipeObserva s he hd =>
    exact ⟨inv.semErro, inv.baiaLivre, inv.donoPreDisparo, inv.disparadoDono,
      inv.contaAtual, inv.contaFutura, inv.contaPassada⟩
  | equipeConclui s he =>
    refine ⟨inv.semErro, fun _ => rfl, fun _ _ _ => rfl, ?_, ?_, ?_, ?_⟩
    · intro h2
      exact absurd h2 (by simp)
    · show s.historico.count (s.geracao + 1) = if false then 1 else 0
      rw [inv.contaFutura (s.geracao + 1) (Nat.lt_succ_self _)]
      rfl
    · intro g hg
      exact inv.contaFutura g (Nat.lt_of_succ_lt hg)
    · intro g hg
      rcases Nat.lt_succ_iff_lt_or_eq.mp hg with hg2 | hg2
      · exact inv.contaPassada g hg2
      · subst hg2
        rw [inv.contaAtual]
        split <;> omega
  | liberaBaia i g s hv hb hg =>
    have hd : s.disparado = false := by
      by_contra hd2
      have hd3 : s.disparado = true := by
        cases hval : s.disparado
        · exact absurd hval hd2
        · rfl
      obtain ⟨j, hbj, hfj⟩ := inv.disparadoDono hd3
      rw [hb] at hbj
      have hij : i = j := Option.some.inj hbj
      subst hij
      rw [hv] at hfj
      have : g = s.geracao := by
        have h2 := Option.some.inj hfj
        cases h2
        rfl
      omega
    refine ⟨inv.semErro, fun _ => hd, ?_, ?_, inv.contaAtual, inv.contaFutura,
      inv.contaPassada⟩
    · intro j hbj
      exact absurd hbj (by simp)
    · intro h2
      rw [hd] at h2
      exact absurd h2 (by simp)

theorem alcancavelCD_inv {n : ℕ} {s : EstadoCD} (h : AlcancavelCD n s) : InvCD s := by
  induction h with
  | inicial =>
    refine ⟨rfl, fun _ => rfl, ?_, ?_, rfl, fun g _ => rfl, ?_⟩
    · intro i hi
      exact absurd hi (by simp [inicialCD])
    · intro h2
      exact absurd h2 (by simp [inicialCD])
    · intro g hg
      exact absurd hg (by simp [inicialCD])
  | passo _ hstep ih => exact passoCD_inv ih hstep

/-- Claim C10: in every reachable state of the van/crew load-gate protocol
(capacity-1 bay serializing vans, vans firing the gate only while holding
the bay, the crew renewing the gate in the same synchronous block that
triggers the finish event, before any waiter resumes), no van has ever
fired an already-fired load-start event, and every generation of the gate
is fired at most once between consecutive renewals. -/
theorem van_nunca_dispara_evento_ja_disparado (n : ℕ) (s : EstadoCD)
    (h : AlcancavelCD n s) :
    s.erro = false ∧ ∀ g, s.historico.count g ≤ 1 := by
  have inv := alcancavelCD_inv h
  refine ⟨inv.semErro, ?_⟩
  intro g
  rcases lt_trichotomy g s.geracao with hg | hg | hg
  · exact inv.contaPassada g hg
  · subst hg
    rw [inv.contaAtual]
    split <;> omega
  · rw [inv.contaFutura g hg]
    omega

/-- Witness for `van_nunca_dispara_evento_ja_disparado`: one van runs a
full cycle (request bay, acquire, fire generation 0, crew observes and
concludes, van releases); the final state has no error and generation 0
fired exactly once. -/
theorem van_nunca_dispara_evento_ja_disparado_witness :
    (⟨1, false, none, [FaseVan.entrega], FaseEquipe.esperando, [0], false⟩
        : EstadoCD).erro = false
    ∧ ∀ g, ((⟨1, false, none, [FaseVan.entrega], FaseEquipe.esperando, [0], false⟩
        : EstadoCD).historico.count g ≤ 1) := by
  have hreach : AlcancavelCD 1
      ⟨1, false, none, [FaseVan.entrega], FaseEquipe.esperando, [0], false⟩ := by
    have h0 : AlcancavelCD 1 (inicialCD 1) := AlcancavelCD.inicial
    have h1 := AlcancavelCD.passo h0 (PassoCD.pedeBaia 0 (inicialCD 1) (by decide))
    have h2 := AlcancavelCD.passo h1 (PassoCD.ocupaBaia 0 _ (by decide) (by decide))
    have h3 := AlcancavelCD.passo h2 (PassoCD.disparaCarga 0 _ (by decide) (by decide))
    have h4 := AlcancavelCD.passo h3 (PassoCD.equipeObserva _ (by decide) (by decide))
    have h5 := AlcancavelCD.passo h4 (PassoCD.equipeConclui _ (by decide))
    have h6 := AlcancavelCD.passo h5
      (PassoCD.liberaBaia 0 0 _ (by decide) (by decide) (by decide))
    exact show AlcancavelCD 1 _ from h6
  exact van_nunca_dispara_evento_ja_disparado 1 _ hreach

/-! ## Claim C7: the refill amounts of `_monitora`

Source: `montagem.py` lines 44-55 (`ModeloMontagem._monitora`): every
`abs(normal(40, 3))` minutes the monitor refills the pieces container with
`put(60 - level)` — unguarded — and the screws container with
`max(integers(990, 1010), level) - level`, guarded by `if qtd > 0`.
`simpy.Container.put`/`get` raise `ValueError` synchronously when the
amount is not positive.

The executable model below translates `ModeloMontagem1` (`inicia`,
`_monitora`, `_executa_funcionario_1`, `_fixa_pecas`,
`_executa_funcionario_2`, `_une_pecas`) with the random draws supplied as
input streams (each drawn value ranges over the support of its
distribution: `abs(normal(...))` over the non-negative reals,
`integers(990, 1010)` over that integer range).  Scheduling: enabled
same-instant actions run in a fixed creation-like order (monitor, then the
ten `funcionario_1` workers, then the ten `funcionario_2` workers; the
source interleaves worker creation, which does not affect any state
reached here); container queues are FIFO with head-of-line blocking and
are served after every put, as in the core (spec §4.5).  Virtual time
ranges over an arbitrary linearly ordered commutative ring `T`: the
source's real-valued clock corresponds to instantiating `T` with the
reals, and every definition works unchanged at `ℚ`; the failing schedule
below draws integer values only, so it is exhibited at `T := ℤ`, whose
embedding into the rationals preserves addition, order and equality, and
therefore identifies it with the corresponding rational-time run. -/

/-- Phase of one `_executa_funcionario_1` worker: at the loop top about to
`get(2)` pieces, queued in the pieces container, fixing until the given
instant, queued on the machining resource, machining until the given
instant. -/
inductive FaseFunc1 (T : Type)
  | pedePecas
  | esperaPecas
  | fixa (fim : T)
  | esperaMaquina
  | usina (fim : T)
  deriving DecidableEq

/-- Phase of one `_executa_funcionario_2` worker: about to `get(2)` fixed
pieces, queued on that container, about to `get(4)` screws, queued there,
or joining pieces until the given instant. -/
inductive FaseFunc2 (T : Type)
  | pedeFixadas
  | esperaFixadas
  | pedeParafusos
  | esperaParafusos
  | une (fim : T)
  deriving DecidableEq

/-- Phase of `_monitora`: about to yield its first timeout, or sleeping
until the given instant (after which it refills). -/
inductive FaseMonitor (T : Type)
  | inicio
  | dorme (acorda : T)
  deriving DecidableEq

/-- State of the `ModeloMontagem1` run: virtual clock, the three container
levels, their FIFO get-queues (worker index and requested amount), the
capacity-1 machining resource, the process phases, the input draw streams,
and whether a container `put` was called with a non-positive amount (the
synchronous `ValueError`). -/
structure EstadoMontagem (T : Type) where
  agora : T
  nivelPecas : ℤ
  nivelParafusos : ℤ
  nivelFixadas : ℤ
  filaGetPecas : List (ℕ × ℤ)
  filaGetFixadas : List (ℕ × ℤ)
  filaGetParafusos : List (ℕ × ℤ)
  maquinaOcupada : Bool
  filaMaquina : List ℕ
  monitor : FaseMonitor T
  func1 : List (FaseFunc1 T)
  func2 : List (FaseFunc2 T)
  drawsMonitor : List T
  drawsParafusos : List ℤ
  drawsFixa : List T
  drawsUne : List T
  erroPut : Bool
  deriving DecidableEq

variable {T : Type} [LinearOrderedCommRing T]

/-- Serve the pieces get-queue FIFO with head-of-line blocking: while the
head's amount fits the level, decrement the level and start the granted
worker's `_fixa_pecas` (consuming one fixing draw). -/
def serveFilaPecas : ℕ → EstadoMontagem T → EstadoMontagem T
  | 0, s => s
  | fuel + 1, s =>
    match s.filaGetPecas with
    | [] => s
    | (i, amt) :: resto =>
      if amt ≤ s.nivelPecas then
        serveFilaPecas fuel
          { s with nivelPecas := s.nivelPecas - amt, filaGetPecas := resto,
                   func1 := s.func1.set i (.fixa (s.agora + s.drawsFixa.headD 0)),
                   drawsFixa := s.drawsFixa.tail }
      else s

/-- Serve the fixed-pieces get-queue: a granted `funcionario_2` proceeds to
request screws. -/
def serveFilaFixadas : ℕ → EstadoMontagem T → EstadoMontagem T
  | 0, s => s
  | fuel + 1, s =>
    match s.filaGetFixadas with
    | [] => s
    | (i, amt) :: resto =>
      if amt ≤ s.nivelFixadas then
        serveFilaFixadas fuel
          { s with nivelFixadas := s.nivelFixadas - amt, filaGetFixadas := resto,
                   func2 := s.func2.set i .pedeParafusos }
      else s

/-- Serve the screws get-queue: a granted `funcionario_2` starts
`_une_pecas` (consuming one joining draw). -/
def serveFilaParafusos : ℕ → EstadoMontagem T → EstadoMontagem T
  | 0, s => s
  | fuel + 1, s =>
    match s.filaGetParafusos with
    | [] => s
    | (i, amt) :: resto =>
      if amt ≤ s.nivelParafusos then
        serveFilaParafusos fuel
          { s with nivelParafusos := s.nivelParafusos - amt, filaGetParafusos := resto,
                   func2 := s.func2.set i (.une (s.agora + s.drawsUne.headD 0)),
                   drawsUne := s.drawsUne.tail }
      else s

/-- The amount the monitor passes to the pieces container put:
`60 - self._container_pecas.level` (line 51). -/
def amountRefilPecas (s : EstadoMontagem T) : ℤ := 60 - s.nivelPecas

/-- The screws amount the monitor computes:
`max(self._rnd.integers(990, 1010), level) - level` (line 53). -/
def qtdParafusosRefil (s : EstadoMontagem T) : ℤ :=
  max (s.drawsParafusos.headD 0) s.nivelParafusos - s.nivelParafusos

/-- The pieces part of a refill: perform the put (the validation of its
amount happens in `refilMonitor`), then serve the pieces get-queue. -/
def refilPecasPasso (s : EstadoMontagem T) : EstadoMontagem T :=
  serveFilaPecas s.filaGetPecas.length
    { s with nivelPecas := s.nivelPecas + amountRefilPecas s }

/-- The screws part of a refill (lines 53-55): the put is guarded by
`if qtd_parafusos > 0`, so it only ever executes with a positive amount;
the draw is consumed either way. -/
def refilParafusosPasso (s : EstadoMontagem T) : EstadoMontagem T :=
  if 0 < qtdParafusosRefil s then
    serveFilaParafusos s.filaGetParafusos.length
      { s with nivelParafusos := s.nivelParafusos + qtdParafusosRefil s,
               drawsParafusos := s.drawsParafusos.tail }
  else { s with drawsParafusos := s.drawsParafusos.tail }

/-- The monitor goes back to sleep for the next drawn delay (line 48). -/
def dormeProximo (s : EstadoMontagem T) : EstadoMontagem T :=
  { s with monitor := .dorme (s.agora + s.drawsMonitor.headD 0),
           drawsMonitor := s.drawsMonitor.tail }

/-- One refill step of `_monitora` (lines 50-55): the unguarded pieces put
raises synchronously when its amount `60 - level` is not positive
(`simpy.Container.put` validates `amount > 0`); otherwise the pieces are
topped up, the guarded screws put runs, and the monitor sleeps again. -/
def refilMonitor (s : EstadoMontagem T) : EstadoMontagem T :=
  if amountRefilPecas s ≤ 0 then { s with erroPut := true }
  else dormeProximo (refilParafusosPasso (refilPecasPasso s))

/-- A `funcionario_1` worker finishing `usinagem`: release the machine
(handing it to the queue head, if any), put 2 into the fixed-pieces
container (infinite capacity, never blocks), serve that queue, and return
to the loop top. -/
def terminaUsina (i : ℕ) (s : EstadoMontagem T) : EstadoMontagem T :=
  let s1 :=
    match s.filaMaquina with
    | [] => { s with maquinaOcupada := false }
    | j :: resto => { s with func1 := s.func1.set j (.usina (s.agora + 3)),
                             filaMaquina := resto }
  let s2 := { s1 with nivelFixadas := s1.nivelFixadas + 2,
                      func1 := s1.func1.set i .pedePecas }
  serveFilaFixadas s2.filaGetFixadas.length s2

/-- The first enabled same-instant action, scanned in creation-like order:
the monitor, then the `funcionario_1` workers, then the `funcionario_2`
workers.  `none` when no process can act at the current instant. -/
def acaoImediata (s : EstadoMontagem T) : Option (EstadoMontagem T) :=
  -- monitor
  match s.monitor with
  | .inicio => some { s with monitor := .dorme (s.agora + s.drawsMonitor.headD 0),
                             drawsMonitor := s.drawsMonitor.tail }
  | .dorme t =>
    if t = s.agora then some (refilMonitor s)
    else
      -- funcionario_1 workers
      match (List.range s.func1.length).findSome? (fun i =>
        match s.func1[i]? with
        | some FaseFunc1.pedePecas =>
          some (serveFilaPecas (s.filaGetPecas.length + 1)
            { s with filaGetPecas := s.filaGetPecas ++ [(i, 2)],
                     func1 := s.func1.set i .esperaPecas })
        | some (FaseFunc1.fixa fim) =>
          if fim = s.agora then
            some (if s.maquinaOcupada then
                { s with func1 := s.func1.set i .esperaMaquina,
                         filaMaquina := s.filaMaquina ++ [i] }
              else
                { s with maquinaOcupada := true,
                         func1 := s.func1.set i (.usina (s.agora + 3)) })
          else none
        | some (FaseFunc1.usina fim) =>
          if fim = s.agora then some (terminaUsina i s) else none
        | _ => none) with
      | some s2 => some s2
      | none =>
        -- funcionario_2 workers
        (List.range s.func2.length).findSome? (fun i =>
          match s.func2[i]? with
          | some FaseFunc2.pedeFixadas =>
            some (serveFilaFixadas (s.filaGetFixadas.length + 1)
              { s with filaGetFixadas := s.filaGetFixadas ++ [(i, 2)],
                       func2 := s.func2.set i .esperaFixadas })
          | some FaseFunc2.pedeParafusos =>
            some (serveFilaParafusos (s.filaGetParafusos.length + 1)
              { s with filaGetParafusos := s.filaGetParafusos ++ [(i, 4)],
                       func2 := s.func2.set i .esperaParafusos })
          | some (FaseFunc2.une fim) =>
            if fim = s.agora then some { s with func2 := s.func2.set i .pedeFixadas }
            else none
          | _ => none)

/-- The pending wake-up instants of all sleeping processes. -/
def instantesDespertar (s : EstadoMontagem T) : List T :=
  (match s.monitor with
   | .dorme t => [t]
   | _ => [])
  ++ s.func1.filterMap (fun f =>
      match f with
      | .fixa fim => some fim
      | .usina fim => some fim
      | _ => none)
  ++ s.func2.filterMap (fun f =>
      match f with
      | .une fim => some fim
      | _ => none)

/-- One scheduler step: run the first enabled same-instant action, or
advance the clock to the earliest future wake-up. -/
def passoMontagem (s : EstadoMontagem T) : EstadoMontagem T :=
  if s.erroPut then s
  else
    match acaoImediata s with
    | some s2 => s2
    | none =>
      match (instantesDespertar s).filter (fun t => s.agora < t) with
      | [] => s
      | t :: resto => { s with agora := resto.foldr min t }

/-- Iterate the scheduler. -/
def executaMontagem : ℕ → EstadoMontagem T → EstadoMontagem T
  | 0, s => s
  | n + 1, s => executaMontagem n (passoMontagem s)

/-- Initial state of `ModeloMontagem1.inicia`/`_executa`: pieces container
at its full capacity 60, screws at 1010, fixed pieces at 0, machine free,
ten workers of each kind about to run their loop tops, the monitor about to
yield its first timeout, and the concrete input draws of the failing
schedule: monitor sleeps of 41 then 1 minutes, a screws draw of 990, and
fixing draws of 100 minutes for every worker (all values lie in the support
of the respective distributions). -/
def inicialMontagemFalha : EstadoMontagem ℤ :=
  { agora := 0, nivelPecas := 60, nivelParafusos := 1010, nivelFixadas := 0,
    filaGetPecas := [], filaGetFixadas := [], filaGetParafusos := [],
    maquinaOcupada := false, filaMaquina := [],
    monitor := .inicio,
    func1 := List.replicate 10 .pedePecas,
    func2 := List.replicate 10 .pedeFixadas,
    drawsMonitor := [41, 1, 40, 40],
    drawsParafusos := [990, 990],
    drawsFixa := List.replicate 12 100,
    drawsUne := [4, 4],
    erroPut := false }

/-- Claim C7 counterexample: the failing schedule.  At t = 0 the ten
workers take 20 pieces (level 40) and then all fix for 100 minutes; the
first refill at t = 41 puts 20 (level 60); the monitor's second sleep draw
is 1 minute, so the second refill at t = 42 finds the pieces container
still full and calls `put(60 - 60) = put(0)`, whose validation raises the
synchronous non-positive-amount error.  Every drawn value lies in the
support of its distribution, so this is a run of the model; the claim that
the pieces amount is strictly positive in every refill step, and that the
error is never raised during a run, is false. -/
theorem monitora_refil_com_nivel_cheio_dispara_erro :
    (executaMontagem 25 inicialMontagemFalha).erroPut = true
    ∧ (executaMontagem 24 inicialMontagemFalha).nivelPecas = 60
    ∧ amountRefilPecas (executaMontagem 24 inicialMontagemFalha) = 0
    ∧ (executaMontagem 24 inicialMontagemFalha).agora = 42 := by
  refine ⟨?_, ?_, ?_, ?_⟩ <;> decide

theorem serveFilaPecas_erroPut (fuel : ℕ) :
    ∀ s : EstadoMontagem T, (serveFilaPecas fuel s).erroPut = s.erroPut := by
  induction fuel with
  | zero => intro s; rfl
  | succ n ih =>
    intro s
    rw [serveFilaPecas]
    split
    · rfl
    · split
      · rw [ih]
      · rfl

theorem serveFilaParafusos_erroPut (fuel : ℕ) :
    ∀ s : EstadoMontagem T, (serveFilaParafusos fuel s).erroPut = s.erroPut := by
  induction fuel with
  | zero => intro s; rfl
  | succ n ih =>
    intro s
    rw [serveFilaParafusos]
    split
    · rfl
    · split
      · rw [ih]
      · rfl

/-- Claim C7, amended: the container put/get validation raises
synchronously exactly on a non-positive amount; the screws put is guarded
by `if qtd_parafusos > 0`, so whenever its computed amount is not positive
no put executes at all (the screws level is untouched); and in every
refill reached with the pieces level strictly below 60 (some piece
consumed since the previous refill) the pieces put amount `60 - level` is
strictly positive — the put tops the container back to its capacity 60 —
and the whole refill completes without raising, whatever get requests are
queued on the containers; a refill reached with the container full raises
(see the counterexample). -/
theorem refil_amounts_positivos (s : EstadoMontagem T) (h1 : s.nivelPecas < 60) :
    0 < amountRefilPecas s
    ∧ s.nivelPecas + amountRefilPecas s = 60
    ∧ (refilMonitor s).erroPut = s.erroPut
    ∧ (∀ s2 : EstadoMontagem T, qtdParafusosRefil s2 ≤ 0 →
        (refilParafusosPasso s2).nivelParafusos = s2.nivelParafusos)
    ∧ ∀ s2 : EstadoMontagem T, amountRefilPecas s2 ≤ 0 → (refilMonitor s2).erroPut = true := by
  have hpos : 0 < amountRefilPecas s := by
    rw [amountRefilPecas]
    omega
  have hnot : ¬ amountRefilPecas s ≤ 0 := by omega
  have epar : ∀ s2 : EstadoMontagem T, (refilParafusosPasso s2).erroPut = s2.erroPut := by
    intro s2
    rw [refilParafusosPasso]
    by_cases hqt : 0 < qtdParafusosRefil s2
    · rw [if_pos hqt, serveFilaParafusos_erroPut]
    · rw [if_neg hqt]
  have epec : ∀ s2 : EstadoMontagem T, (refilPecasPasso s2).erroPut = s2.erroPut := by
    intro s2
    rw [refilPecasPasso, serveFilaPecas_erroPut]
  refine ⟨hpos, ?_, ?_, ?_, ?_⟩
  · rw [amountRefilPecas]
    omega
  · rw [refilMonitor, if_neg hnot]
    show (refilParafusosPasso (refilPecasPasso s)).erroPut = s.erroPut
    rw [epar, epec]
  · intro s2 hle
    rw [refilParafusosPasso, if_neg (not_lt.mpr hle)]
  · intro s2 hle
    rw [refilMonitor, if_pos hle]

/-- Witness for `refil_amounts_positivos`: the state of the failing
schedule just before its first refill (t = 41, pieces level 40): the
pieces amount is 20 > 0, the put tops the container back to 60, and the
refill completes without error. -/
theorem refil_amounts_positivos_witness :
    (executaMontagem 22 inicialMontagemFalha).nivelPecas < 60
    ∧ 0 < amountRefilPecas (executaMontagem 22 inicialMontagemFalha)
    ∧ (executaMontagem 22 inicialMontagemFalha).nivelPecas
        + amountRefilPecas (executaMontagem 22 inicialMontagemFalha) = 60
    ∧ (refilMonitor (executaMontagem 22 inicialMontagemFalha)).erroPut
        = (executaMontagem 22 inicialMontagemFalha).erroPut := by
  have h := refil_amounts_positivos (executaMontagem 22 inicialMontagemFalha) (by decide)
  exact ⟨by decide, h.1, h.2.1, h.2.2.1⟩

end SD
